import Mathlib

/-!
Verification of the rabbithole topic-extraction and prioritization pipeline.

The Python source (ingest.py, agent.py, services/akash.py) is shallowly
embedded below.  Conventions used throughout:

* Python `str` values whose character-level behaviour matters (message text,
  topic names, LLM replies) are modelled as `List Char`; opaque identifier
  strings are modelled as `String`.
* `datetime` instants are modelled as rational epoch seconds (UTC), so
  `datetime.fromtimestamp(ts, tz=utc)` is the identity and `datetime.min`
  is the constant `datetimeMin` (year 1 in epoch seconds).
* Python floats are idealised as `ℚ`; `round(x, 2)` is banker's rounding to
  two decimal places (`pround2`).
* Python's `list.sort(key=...)` is a stable sort; since any two stable sorts
  by the same total key order agree on all inputs, it is modelled by
  `List.insertionSort`.
* Outbound network services (the LLM completion endpoint, the web-search
  endpoint) and `json.loads` are modelled as oracle functions supplied as
  parameters; a raised Python exception is an `Except.error`.
-/

namespace RabbitHole

/-! ### Python string primitives on `List Char` -/

/-- Python `str.strip()`: drop whitespace from both ends. -/
def pyStrip (l : List Char) : List Char :=
  ((l.dropWhile Char.isWhitespace).reverse.dropWhile Char.isWhitespace).reverse

/-- Python `"\n".join(parts)`. -/
def pyJoinNL : List (List Char) → List Char
  | [] => []
  | [p] => p
  | p :: q :: rest => p ++ '\n' :: pyJoinNL (q :: rest)

theorem pyStrip_eq_nil_iff (l : List Char) :
    pyStrip l = [] ↔ ∀ c ∈ l, c.isWhitespace = true := by
  unfold pyStrip
  rw [List.reverse_eq_nil_iff, List.dropWhile_eq_nil_iff]
  constructor
  · intro h c hc
    rcases List.mem_append.mp
        ((List.takeWhile_append_dropWhile (p := Char.isWhitespace) (l := l)) ▸ hc) with h1 | h1
    · exact List.mem_takeWhile_imp h1
    · exact h c (List.mem_reverse.mpr h1)
  · intro h c hc
    exact h c ((List.dropWhile_sublist _).mem (List.mem_reverse.mp hc))

theorem mem_pyJoinNL {c : Char} :
    ∀ {ps : List (List Char)} {p : List Char}, p ∈ ps → c ∈ p → c ∈ pyJoinNL ps
  | [], _, hp, _ => absurd hp (List.not_mem_nil _)
  | [q], p, hp, hc => by
      rcases List.mem_singleton.mp hp with rfl
      simpa [pyJoinNL] using hc
  | q :: r :: rest, p, hp, hc => by
      rcases List.mem_cons.mp hp with rfl | hp'
      · exact List.mem_append_left _ hc
      · exact List.mem_append_right _
          (List.mem_cons_of_mem _ (mem_pyJoinNL hp' hc))

theorem pyStrip_pyJoinNL_ne_nil {ps : List (List Char)}
    (hne : ps ≠ []) (hall : ∀ p ∈ ps, pyStrip p ≠ []) :
    pyStrip (pyJoinNL ps) ≠ [] := by
  obtain ⟨p0, rest, rfl⟩ := List.exists_cons_of_ne_nil hne
  have h0 := hall p0 (List.mem_cons_self _ _)
  rw [Ne, pyStrip_eq_nil_iff] at h0 ⊢
  push_neg at h0 ⊢
  obtain ⟨c, hc, hcw⟩ := h0
  exact ⟨c, mem_pyJoinNL (List.mem_cons_self _ _) hc, hcw⟩

/-! ### Python `round` (banker's rounding) and `round(x, 2)` over `ℚ` -/

/-- Python `round(q)` on the idealised rational value: round half to even. -/
def pyRound (q : ℚ) : ℤ :=
  if q - ⌊q⌋ < 1/2 then ⌊q⌋
  else if 1/2 < q - ⌊q⌋ then ⌊q⌋ + 1
  else if ⌊q⌋ % 2 = 0 then ⌊q⌋ else ⌊q⌋ + 1

/-- Python `round(q, 2)`. -/
def pround2 (q : ℚ) : ℚ := (pyRound (q * 100) : ℚ) / 100

theorem floor_le_pyRound (q : ℚ) : ⌊q⌋ ≤ pyRound q := by
  unfold pyRound; split_ifs <;> omega

theorem pyRound_le_floor_add_one (q : ℚ) : pyRound q ≤ ⌊q⌋ + 1 := by
  unfold pyRound; split_ifs <;> omega

theorem pyRound_mono {q r : ℚ} (h : q ≤ r) : pyRound q ≤ pyRound r := by
  have hf : ⌊q⌋ ≤ ⌊r⌋ := Int.floor_le_floor h
  rcases lt_or_eq_of_le hf with hlt | heq
  · calc pyRound q ≤ ⌊q⌋ + 1 := pyRound_le_floor_add_one q
    _ ≤ ⌊r⌋ := by omega
    _ ≤ pyRound r := floor_le_pyRound r
  · have hfr : q - ⌊q⌋ ≤ r - ⌊r⌋ := by
      rw [← heq]; exact sub_le_sub_right h _
    unfold pyRound
    rw [← heq]
    split_ifs <;> first | omega | linarith

theorem pround2_mono {q r : ℚ} (h : q ≤ r) : pround2 q ≤ pround2 r := by
  unfold pround2
  have := pyRound_mono (mul_le_mul_of_nonneg_right h (by norm_num : (0:ℚ) ≤ 100))
  have hc : (pyRound (q * 100) : ℚ) ≤ (pyRound (r * 100) : ℚ) := by exact_mod_cast this
  linarith

theorem pyRound_intCast (n : ℤ) : pyRound (n : ℚ) = n := by
  unfold pyRound
  rw [Int.floor_intCast, sub_self]
  norm_num

theorem pround2_intCast (n : ℤ) : pround2 (n : ℚ) = n := by
  unfold pround2
  rw [show ((n : ℚ) * 100) = ((n * 100 : ℤ) : ℚ) by push_cast; ring, pyRound_intCast]
  push_cast
  ring

/-! ### Conversation parser (ingest.py, `parse_conversations`)

`parse_conversations` and `parse_conversations_bytes` perform the identical
transformation (they differ only in reading from a file path versus a byte
payload); both are embedded by the single function `parse_conversations`
below, taking the already-JSON-decoded export as input. -/

/-- One entry of a message's `content["parts"]` array: either a JSON string
or a non-string JSON value (which `isinstance(p, str)` rejects). -/
inductive Part where
  | str (s : List Char)
  | nonStr
  deriving DecidableEq

/-- The raw message object found at `node["message"]`:
`author.role`, `content.parts` and `create_time` with all fields optional. -/
structure RawMessage where
  author_role : Option String
  parts : List Part
  create_time : Option ℚ
  deriving DecidableEq

/-- One node of the conversation `mapping`; `message` may be absent. -/
structure RawNode where
  message : Option RawMessage
  deriving DecidableEq

/-- A raw conversation object of the export.  `id_fld` models the generic
`"id"` field used as fallback for `"conversation_id"`. -/
structure RawConv where
  conversation_id : Option String
  id_fld : Option String
  title : Option String
  create_time : Option ℚ
  update_time : Option ℚ
  default_model_slug : Option String
  mapping : List (String × RawNode)
  deriving DecidableEq

/-- Parsed message (ingest.py lines 42-47). -/
structure Message where
  id : String
  role : String
  content : List Char
  created_at : Option ℚ
  deriving DecidableEq

/-- Parsed conversation (ingest.py lines 52-60). -/
structure Conversation where
  id : String
  title : String
  created_at : Option ℚ
  updated_at : Option ℚ
  model_slug : Option String
  messages : List Message
  message_count : ℕ
  deriving DecidableEq

/-- `datetime.min.replace(tzinfo=timezone.utc)` as epoch seconds:
0001-01-01T00:00:00Z is -62135596800 seconds before the Unix epoch. -/
def datetimeMin : ℚ := -62135596800

/-- `_ts_to_dt`: with instants modelled as rational epoch seconds,
`datetime.fromtimestamp(ts, tz=timezone.utc)` is the identity on `some`. -/
def ts_to_dt (ts : Option ℚ) : Option ℚ := ts

/-- Python `a or b` for an optional string `a` (falsy when absent or empty). -/
def pyOrStr (a : Option String) (b : String) : String :=
  match a with
  | some s => if s = "" then b else s
  | none => b

/-- The kept text parts of a message:
`[p for p in parts if isinstance(p, str) and p.strip()]`. -/
def textParts (parts : List Part) : List (List Char) :=
  parts.filterMap fun p =>
    match p with
    | Part.str s => if pyStrip s = [] then none else some s
    | Part.nonStr => none

/-- The body of the mapping loop (ingest.py lines 28-47): build the message
appended for one node, or `none` when the node is skipped (`continue`). -/
def msgOfNode (node_id : String) (node : RawNode) : Option Message :=
  match node.message with
  | none => none
  | some msg =>
    if msg.author_role = some "user" ∨ msg.author_role = some "assistant" then
      let tps := textParts msg.parts
      if tps = [] then none
      else some { id := node_id
                  role := msg.author_role.getD ""
                  content := pyJoinNL tps
                  created_at := ts_to_dt msg.create_time }
    else none

/-- Sort key of ingest.py line 50:
`m["created_at"] or datetime.min.replace(tzinfo=timezone.utc)`. -/
def msgSortKey (m : Message) : ℚ := m.created_at.getD datetimeMin

/-- The flattened, sorted message list of one conversation.  Python's
`list.sort` is stable, so it agrees with stable `insertionSort` on the
total key order. -/
def flattenMessages (mapping : List (String × RawNode)) : List Message :=
  (mapping.filterMap fun p => msgOfNode p.1 p.2).insertionSort
    fun a b => msgSortKey a ≤ msgSortKey b

/-- One iteration of the outer loop of `parse_conversations`. -/
def parseConv (conv : RawConv) : Conversation :=
  let msgs := flattenMessages conv.mapping
  { id := pyOrStr conv.conversation_id (conv.id_fld.getD "")
    title := pyOrStr conv.title "Untitled"
    created_at := ts_to_dt conv.create_time
    updated_at := ts_to_dt conv.update_time
    model_slug := conv.default_model_slug
    messages := msgs
    message_count := msgs.length }

/-- `parse_conversations` (ingest.py lines 12-62): parse the decoded export,
flatten message trees, return structured data. -/
def parse_conversations (raw : List RawConv) : List Conversation :=
  raw.map parseConv

/-! ### Claims C1 and C8 about the parser -/

/-- A conversation whose mapping holds one timestamped message (epoch 100)
followed by one message with `create_time` absent. -/
def c1RawConv : RawConv :=
  { conversation_id := some "c1"
    id_fld := none
    title := some "t"
    create_time := none
    update_time := none
    default_model_slug := none
    mapping :=
      [("m1", { message := some { author_role := some "user"
                                  parts := [Part.str "hi".toList]
                                  create_time := some 100 } }),
       ("m2", { message := some { author_role := some "assistant"
                                  parts := [Part.str "yo".toList]
                                  create_time := none } })] }

/-- C1: the claim states that messages with a null creation timestamp appear
after all timestamped messages.  The code (ingest.py line 50) sorts with key
`m["created_at"] or datetime.min`, i.e. it treats null as the minimum
instant, so the null-timestamped message of `c1RawConv` is placed before the
message timestamped 100 — the claim fails on this input. -/
theorem C1_null_timestamp_sorts_first :
    (parse_conversations [c1RawConv]).map (fun c => c.messages.map Message.created_at)
      = [[none, some 100]] := by
  decide

theorem textParts_strip {p : List Char} {parts : List Part}
    (hp : p ∈ textParts parts) : pyStrip p ≠ [] := by
  obtain ⟨part, -, hpe⟩ := List.mem_filterMap.mp hp
  cases part with
  | nonStr => simp [textParts] at hpe
  | str s =>
    by_cases h : pyStrip s = []
    · simp [h] at hpe
    · simp only [if_neg h, Option.some.injEq] at hpe
      exact hpe ▸ h

/-- C8: every message of a parsed conversation has role exactly `"user"` or
`"assistant"` and non-empty text after trimming (the text being the
newline-join of the message's non-empty string parts), and `message_count`
equals the length of the filtered, sorted message list. -/
theorem C8_roles_nonempty_count (raw : List RawConv) (conv : Conversation)
    (hc : conv ∈ parse_conversations raw) :
    conv.message_count = conv.messages.length ∧
    ∀ m ∈ conv.messages,
      (m.role = "user" ∨ m.role = "assistant") ∧ pyStrip m.content ≠ [] := by
  obtain ⟨rc, -, rfl⟩ := List.mem_map.mp hc
  refine ⟨rfl, ?_⟩
  intro m hm
  have hm2 : m ∈ (rc.mapping.filterMap fun p => msgOfNode p.1 p.2) :=
    (List.perm_insertionSort _ _).mem_iff.mp hm
  obtain ⟨⟨nid, node⟩, -, heq⟩ := List.mem_filterMap.mp hm2
  unfold msgOfNode at heq
  cases hnm : node.message with
  | none => rw [hnm] at heq; exact absurd heq (by simp)
  | some msg =>
    rw [hnm] at heq
    dsimp only at heq
    by_cases hrole : msg.author_role = some "user" ∨ msg.author_role = some "assistant"
    · rw [if_pos hrole] at heq
      by_cases htps : textParts msg.parts = []
      · rw [if_pos htps] at heq; exact absurd heq (by simp)
      · rw [if_neg htps] at heq
        simp only [Option.some.injEq] at heq
        subst heq
        constructor
        · rcases hrole with h | h <;> rw [h] <;> simp
        · exact pyStrip_pyJoinNL_ne_nil htps fun p hp => textParts_strip hp
    · rw [if_neg hrole] at heq
      exact absurd heq (by simp)

/-- An export with one conversation: a user message with one blank string
part, one text part and one non-string part; a system message; and a node
without a message. -/
def c8RawConv : RawConv :=
  { conversation_id := none
    id_fld := some "x9"
    title := none
    create_time := some 5
    update_time := none
    default_model_slug := none
    mapping :=
      [("n1", { message := some { author_role := some "user"
                                  parts := [Part.str " ".toList,
                                            Part.str "ok".toList, Part.nonStr]
                                  create_time := some 3 } }),
       ("n2", { message := some { author_role := some "system"
                                  parts := [Part.str "sys".toList]
                                  create_time := some 1 } }),
       ("n3", { message := none })] }

/-- Concrete instantiation of `C8_roles_nonempty_count`. -/
theorem C8_roles_nonempty_count_witness :
    parseConv c8RawConv ∈ parse_conversations [c8RawConv] ∧
    ((parseConv c8RawConv).message_count = (parseConv c8RawConv).messages.length ∧
     ∀ m ∈ (parseConv c8RawConv).messages,
       (m.role = "user" ∨ m.role = "assistant") ∧ pyStrip m.content ≠ []) :=
  ⟨by decide, C8_roles_nonempty_count [c8RawConv] (parseConv c8RawConv) (by decide)⟩

/-! ### Priority scorer (ingest.py lines 219-234) -/

/-- ingest.py line 224: `max(0, 10 - days_ago * 0.1)`. -/
def recencyBonusOfDays (days_ago : ℤ) : ℚ := max 0 (10 - days_ago * (1/10))

/-- ingest.py line 222: `c["updated_at"] or c["created_at"] or datetime.min`. -/
def convRefTime (c : Conversation) : ℚ :=
  match c.updated_at with
  | some t => t
  | none =>
    match c.created_at with
    | some t => t
    | none => datetimeMin

/-- ingest.py line 223: `(datetime.now(timezone.utc) - latest).days`;
`timedelta.days` is floor division of the elapsed seconds by 86400. -/
def daysAgo (now latest : ℚ) : ℤ := ⌊(now - latest) / 86400⌋

/-- ingest.py lines 220-224: the recency bonus of one proposed topic,
`0` when no classified conversation id matched a parsed conversation,
otherwise computed from `max` of the conversations' reference times. -/
def topicRecencyBonus (now : ℚ) (conv_data : List Conversation) : ℚ :=
  match conv_data with
  | [] => 0
  | c :: cs =>
    recencyBonusOfDays (daysAgo now ((cs.map convRefTime).foldl max (convRefTime c)))

/-- ingest.py line 225:
`priority = len(conv_ids) * 2 + total_msgs * 0.1 + recency_bonus`;
the value is rounded with `round(priority, 2)` at the insert (line 234). -/
def priorityScore (numConvs totalMsgs : ℕ) (recency_bonus : ℚ) : ℚ :=
  numConvs * 2 + totalMsgs * (1/10) + recency_bonus

theorem recencyBonusOfDays_zero : recencyBonusOfDays 0 = 10 := by
  unfold recencyBonusOfDays
  have h : (0 : ℚ) ≤ 10 - ((0 : ℤ) : ℚ) * (1/10) := by norm_num
  rw [max_eq_right h]
  norm_num

theorem recencyBonusOfDays_onefifty : recencyBonusOfDays 150 = 0 := by
  unfold recencyBonusOfDays
  have h : (10 : ℚ) - ((150 : ℤ) : ℚ) * (1/10) ≤ 0 := by norm_num
  rw [max_eq_left h]

/-- C2: the stored priority equals `round(2*N + 0.1*M + max(0, 10 - 0.1*days_ago), 2)`;
`priority(5, 50, 0) = 25`, `priority(5, 50, 150) = 15`; for fixed N and M the
score is non-increasing in `days_ago`, and the recency bonus is never negative. -/
theorem C2_priority_formula (N M : ℕ) (d d1 d2 : ℤ) (h : d1 ≤ d2) :
    pround2 (priorityScore N M (recencyBonusOfDays d))
      = pround2 (2 * (N : ℚ) + (1/10) * (M : ℚ) + max 0 (10 - (1/10) * (d : ℚ))) ∧
    pround2 (priorityScore 5 50 (recencyBonusOfDays 0)) = 25 ∧
    pround2 (priorityScore 5 50 (recencyBonusOfDays 150)) = 15 ∧
    pround2 (priorityScore N M (recencyBonusOfDays d2))
      ≤ pround2 (priorityScore N M (recencyBonusOfDays d1)) ∧
    0 ≤ recencyBonusOfDays d := by
  refine ⟨?_, ?_, ?_, ?_, le_max_left _ _⟩
  · unfold priorityScore recencyBonusOfDays
    rw [mul_comm (d : ℚ) (1/10)]
    ring_nf
  · have h0 : priorityScore 5 50 (recencyBonusOfDays 0) = ((25 : ℤ) : ℚ) := by
      rw [recencyBonusOfDays_zero]
      unfold priorityScore
      norm_num
    rw [h0, pround2_intCast]
    norm_num
  · have h0 : priorityScore 5 50 (recencyBonusOfDays 150) = ((15 : ℤ) : ℚ) := by
      rw [recencyBonusOfDays_onefifty]
      unfold priorityScore
      norm_num
    rw [h0, pround2_intCast]
    norm_num
  · apply pround2_mono
    unfold priorityScore recencyBonusOfDays
    have hd : (d1 : ℚ) ≤ d2 := by exact_mod_cast h
    have hb : max 0 (10 - (d2 : ℚ) * (1/10)) ≤ max 0 (10 - (d1 : ℚ) * (1/10)) :=
      max_le_max le_rfl (by linarith)
    linarith

/-- Concrete instantiation of `C2_priority_formula`. -/
theorem C2_priority_formula_witness :
    (1 : ℤ) ≤ 3 ∧
    (pround2 (priorityScore 4 9 (recencyBonusOfDays 7))
       = pround2 (2 * ((4 : ℕ) : ℚ) + (1/10) * ((9 : ℕ) : ℚ)
           + max 0 (10 - (1/10) * ((7 : ℤ) : ℚ))) ∧
     pround2 (priorityScore 5 50 (recencyBonusOfDays 0)) = 25 ∧
     pround2 (priorityScore 5 50 (recencyBonusOfDays 150)) = 15 ∧
     pround2 (priorityScore 4 9 (recencyBonusOfDays 3))
       ≤ pround2 (priorityScore 4 9 (recencyBonusOfDays 1)) ∧
     0 ≤ recencyBonusOfDays 7) :=
  ⟨by decide, C2_priority_formula 4 9 7 1 3 (by decide)⟩

/-- A conversation with neither a creation nor an update timestamp. -/
def c6Conv : Conversation :=
  { id := "c6", title := "t", created_at := none, updated_at := none
    model_slug := none, messages := [], message_count := 0 }

theorem daysAgo_epoch_datetimeMin : daysAgo 0 datetimeMin = 719162 := by
  unfold daysAgo datetimeMin
  rw [show ((0 : ℚ) - (-62135596800)) / 86400 = ((719162 : ℤ) : ℚ) by norm_num]
  exact Int.floor_intCast _

/-- C6 counterexample: for a topic whose only linked conversation has no
timestamps, the claim predicts the maximal recency bonus 10; the code falls
back to `datetime.min` (not "now"), giving `days_ago = 719162` at the Unix
epoch and hence a recency bonus of 0. -/
theorem C6_recency_counterexample :
    topicRecencyBonus 0 [c6Conv] = 0 ∧ topicRecencyBonus 0 [c6Conv] ≠ 10 := by
  have h : topicRecencyBonus 0 [c6Conv] = 0 := by
    show recencyBonusOfDays (daysAgo 0
      ((([] : List Conversation).map convRefTime).foldl max (convRefTime c6Conv))) = 0
    have hr : convRefTime c6Conv = datetimeMin := rfl
    simp only [List.map_nil, List.foldl_nil, hr, daysAgo_epoch_datetimeMin]
    unfold recencyBonusOfDays
    have hle : (10 : ℚ) - ((719162 : ℤ) : ℚ) * (1/10) ≤ 0 := by norm_num
    rw [max_eq_left hle]
  exact ⟨h, by rw [h]; norm_num⟩

/-- C6 amended: when no linked conversation has a creation or update
timestamp the recency reference point is `datetime.min`, so for any current
instant at least 100 days (8640000 seconds) after `datetime.min` the recency
component is 0, the minimum — not the maximal bonus 10. -/
theorem C6_recency_amended (now : ℚ) (convs : List Conversation)
    (hne : convs ≠ [])
    (hts : ∀ c ∈ convs, c.created_at = none ∧ c.updated_at = none)
    (hnow : datetimeMin + 8640000 ≤ now) :
    topicRecencyBonus now convs = 0 := by
  obtain ⟨c, cs, rfl⟩ := List.exists_cons_of_ne_nil hne
  have hall : ∀ x ∈ c :: cs, convRefTime x = datetimeMin := by
    intro x hx
    obtain ⟨h1, h2⟩ := hts x hx
    unfold convRefTime
    rw [h2, h1]
  have hfold : ∀ l : List ℚ, (∀ x ∈ l, x = datetimeMin) →
      l.foldl max datetimeMin = datetimeMin := by
    intro l
    induction l with
    | nil => intro _; rfl
    | cons a t ih =>
      intro hmem
      simp only [List.foldl_cons]
      rw [hmem a (List.mem_cons_self _ _), max_self]
      exact ih fun x hx => hmem x (List.mem_cons_of_mem _ hx)
  have hlatest : (cs.map convRefTime).foldl max (convRefTime c) = datetimeMin := by
    rw [hall c (List.mem_cons_self _ _)]
    refine hfold _ ?_
    intro x hx
    obtain ⟨y, hy, rfl⟩ := List.mem_map.mp hx
    exact hall y (List.mem_cons_of_mem _ hy)
  show recencyBonusOfDays (daysAgo now ((cs.map convRefTime).foldl max (convRefTime c))) = 0
  rw [hlatest]
  have hd : (100 : ℤ) ≤ daysAgo now datetimeMin := by
    rw [daysAgo, Int.le_floor]
    have h86 : (0 : ℚ) < 86400 := by norm_num
    rw [le_div_iff₀ h86]
    push_cast
    linarith
  have hdq : (100 : ℚ) ≤ (daysAgo now datetimeMin : ℚ) := by exact_mod_cast hd
  unfold recencyBonusOfDays
  exact max_eq_left (by linarith)

/-- Concrete instantiation of `C6_recency_amended`. -/
theorem C6_recency_amended_witness :
    ([c6Conv] ≠ [] ∧
     (∀ c ∈ [c6Conv], c.created_at = none ∧ c.updated_at = none) ∧
     datetimeMin + 8640000 ≤ (0 : ℚ)) ∧
    topicRecencyBonus 0 [c6Conv] = 0 :=
  ⟨⟨by decide, by decide, by norm_num [datetimeMin]⟩,
   C6_recency_amended 0 [c6Conv] (by decide) (by decide) (by norm_num [datetimeMin])⟩

/-! ### Name normalization (ingest.py `_normalize_rh_name`) -/

/-- `name.lower()` (character-wise lowering). -/
def toLowerChars (l : List Char) : List Char := l.map Char.toLower

/-- `s.replace("&", "and")` for the one-character pattern `"&"`. -/
def replaceAmp (l : List Char) : List Char :=
  (l.map fun c => if c = '&' then ['a', 'n', 'd'] else [c]).flatten

/-- Python `s.split()`: split on whitespace runs, dropping empty chunks. -/
def splitWsChunks (l : List Char) : List (List Char) :=
  (l.splitOnP Char.isWhitespace).filter (· ≠ [])

/-- `" ".join(chunks)`. -/
def joinSpace (chunks : List (List Char)) : List Char := List.intercalate [' '] chunks

/-- `_normalize_rh_name` (ingest.py lines 120-125): lower, strip, replace
`"&"` by `"and"`, collapse internal whitespace. -/
def normalizeRhName (name : List Char) : List Char :=
  if name = [] then []
  else joinSpace (splitWsChunks (replaceAmp (pyStrip (toLowerChars name))))

/-! ### Classifier output and the cross-batch merge (ingest.py lines 193-201) -/

/-- One rabbit-hole cluster proposed by the classifier:
`{name, description, conversation_ids}`. -/
structure Hole where
  name : List Char
  description : String
  conversation_ids : List String
  deriving DecidableEq

/-- One iteration of the merge loop (ingest.py lines 195-201).  The Python
dict `merged` (insertion-ordered, keyed by normalized name) is modelled as
an association list; `list(set(xs))` returns the elements of `xs` without
duplicates in an unspecified order and is modelled by `List.dedup`. -/
def mergeHoleStep (merged : List (List Char × Hole)) (rh : Hole) :
    List (List Char × Hole) :=
  let key := normalizeRhName rh.name
  if (merged.find? fun p => p.1 = key).isSome then
    merged.map fun p =>
      if p.1 = key then
        (p.1, { p.2 with
                conversation_ids := (p.2.conversation_ids ++ rh.conversation_ids).dedup })
      else p
  else merged ++ [(key, rh)]

/-- The cross-batch merge of all proposed clusters by normalized name;
`merged.values()` in dict insertion order. -/
def mergeHoles (all_holes : List Hole) : List Hole :=
  (all_holes.foldl mergeHoleStep []).map Prod.snd

/-- C10: when two proposed clusters have equal normalized names, the merge
keeps the first cluster's name and description, discards the second's, and
the merged conversation-id list is the duplicate-free union of both lists. -/
theorem C10_merge_first_wins (h1 h2 : Hole)
    (h : normalizeRhName h1.name = normalizeRhName h2.name) :
    ∃ ids : List String,
      mergeHoles [h1, h2]
        = [{ name := h1.name, description := h1.description, conversation_ids := ids }] ∧
      ids.Nodup ∧
      ∀ c, c ∈ ids ↔ c ∈ h1.conversation_ids ∨ c ∈ h2.conversation_ids := by
  refine ⟨(h1.conversation_ids ++ h2.conversation_ids).dedup, ?_, List.nodup_dedup _, ?_⟩
  · have s1 : mergeHoleStep [] h1 = [(normalizeRhName h1.name, h1)] := by
      simp [mergeHoleStep]
    have s2 : mergeHoleStep [(normalizeRhName h1.name, h1)] h2
        = [(normalizeRhName h1.name,
            { h1 with
              conversation_ids := (h1.conversation_ids ++ h2.conversation_ids).dedup })] := by
      unfold mergeHoleStep
      rw [← h]
      simp [List.find?]
    unfold mergeHoles
    rw [List.foldl_cons, List.foldl_cons, List.foldl_nil, s1, s2]
    rfl
  · intro c
    rw [List.mem_dedup, List.mem_append]

/-- Two clusters, from different batches, with distinct raw names whose
normalizations agree. -/
def c10HoleA : Hole :=
  { name := "A & B".toList, description := "d1", conversation_ids := ["x", "y", "x"] }

def c10HoleB : Hole :=
  { name := " a and  b ".toList, description := "d2", conversation_ids := ["y", "z"] }

/-- Concrete instantiation of `C10_merge_first_wins`. -/
theorem C10_merge_first_wins_witness :
    normalizeRhName c10HoleA.name = normalizeRhName c10HoleB.name ∧
    ∃ ids : List String,
      mergeHoles [c10HoleA, c10HoleB]
        = [{ name := c10HoleA.name, description := c10HoleA.description,
             conversation_ids := ids }] ∧
      ids.Nodup ∧
      ∀ c, c ∈ ids ↔ c ∈ c10HoleA.conversation_ids ∨ c ∈ c10HoleB.conversation_ids :=
  ⟨by decide, C10_merge_first_wins c10HoleA c10HoleB (by decide)⟩

/-! ### The persistent store and the reconciler (ingest.py lines 203-247) -/

/-- One row of `rabbit_holes`.  The schema defaults `status = 'active'`,
`last_researched_at = NULL`; the `created_at`/`updated_at` clock defaults of
the database are not modelled (no claim depends on them at creation). -/
structure Topic where
  id : ℕ
  user_id : Option String
  name : List Char
  description : String
  status : String
  priority_score : ℚ
  last_researched_at : Option ℚ
  updated_at : Option ℚ
  deriving DecidableEq

/-- One row of `insights`. -/
structure Insight where
  id : ℕ
  rabbit_hole_id : ℕ
  content : String
  grounded : Bool
  urgency : String
  created_at : ℚ
  deriving DecidableEq

/-- The `{insight, should_revisit, urgency, reason}` object parsed from the
synthesis reply; absent keys are `none` (`dict.get` defaults apply at use). -/
structure Synthesis where
  insight : Option String
  should_revisit : Option Bool
  urgency : Option String
  reason : Option String
  deriving DecidableEq

/-- One row of `research_runs`; `query_sent` and `deepseek_response` hold
the values whose JSON dumps the code stores. -/
structure ResearchRun where
  id : ℕ
  rabbit_hole_id : ℕ
  query_sent : List String
  deepseek_response : Synthesis
  you_com_results : String
  deriving DecidableEq

/-- One row of `daily_plans`. -/
structure DailyPlan where
  id : ℕ
  user_id : Option String
  plan_date : ℤ
  plan_json : String
  deriving DecidableEq

/-- The relational store: `conversations` is the set of stored conversation
ids (the only column the embedded operations consult); `links` is
`rabbit_hole_conversations` with primary key (rabbit_hole_id,
conversation_id); the `next…` counters model the SERIAL id sequences. -/
structure Store where
  conversations : List String
  topics : List Topic
  links : List (ℕ × String)
  insights : List Insight
  research_runs : List ResearchRun
  daily_plans : List DailyPlan
  nextTopicId : ℕ
  nextInsightId : ℕ
  nextRunId : ℕ
  nextPlanId : ℕ
  deriving DecidableEq

/-- ingest.py lines 240-246:
`INSERT INTO rabbit_hole_conversations (rabbit_hole_id, conversation_id)
SELECT %s, %s WHERE EXISTS (SELECT 1 FROM conversations WHERE id = %s)
ON CONFLICT DO NOTHING` — a total function: no error is ever raised. -/
def insertLink (s : Store) (rh_id : ℕ) (cid : String) : Store :=
  if cid ∈ s.conversations then
    if (rh_id, cid) ∈ s.links then s
    else { s with links := s.links ++ [(rh_id, cid)] }
  else s

/-- C9: linking a topic to a conversation id with no conversation row is a
silent no-op — the store is unchanged and, `insertLink` being total, no
error is raised; a link row is only ever inserted when the conversation
exists. -/
theorem C9_link_no_op (s : Store) (rh_id : ℕ) (cid : String)
    (h : cid ∉ s.conversations) : insertLink s rh_id cid = s := by
  unfold insertLink
  rw [if_neg h]

def c9Store : Store :=
  { conversations := ["u:real"], topics := [], links := [], insights := []
    research_runs := [], daily_plans := []
    nextTopicId := 1, nextInsightId := 1, nextRunId := 1, nextPlanId := 1 }

/-- Concrete instantiation of `C9_link_no_op`: a hallucinated identifier. -/
theorem C9_link_no_op_witness :
    "u:ghost" ∉ c9Store.conversations ∧ insertLink c9Store 7 "u:ghost" = c9Store :=
  ⟨by decide, C9_link_no_op c9Store 7 "u:ghost" (by decide)⟩

/-- `f"{user_id}:" if user_id else ""`. -/
def userPfx (user_id : Option String) : String :=
  match user_id with
  | some u => u ++ ":"
  | none => ""

/-- Lookup in the `existing_by_norm` dict. -/
def lookupNorm (m : List (List Char × ℕ)) (k : List Char) : Option ℕ :=
  (m.find? fun p => p.1 = k).map Prod.snd

/-- One iteration of the reconciliation loop (ingest.py lines 215-246):
score the cluster, reuse the existing topic id of the same normalized name
when present, otherwise insert a new topic row and record its key, then
conditionally insert the conversation links. -/
def reconcileOne (user_id : Option String) (now : ℚ)
    (conversations : List Conversation)
    (acc : Store × List (List Char × ℕ)) (rh : Hole) :
    Store × List (List Char × ℕ) :=
  let conv_ids := rh.conversation_ids.map fun cid => userPfx user_id ++ cid
  let conv_data := conversations.filter fun c => c.id ∈ rh.conversation_ids
  let priority := priorityScore conv_ids.length
    ((conv_data.map Conversation.message_count).sum) (topicRecencyBonus now conv_data)
  let norm := normalizeRhName rh.name
  match lookupNorm acc.2 norm with
  | some rh_id => (conv_ids.foldl (fun st cid => insertLink st rh_id cid) acc.1, acc.2)
  | none =>
    let rh_id := acc.1.nextTopicId
    let s1 : Store := { acc.1 with
      topics := acc.1.topics ++
        [{ id := rh_id, user_id := user_id, name := rh.name,
           description := rh.description, status := "active",
           priority_score := pround2 priority, last_researched_at := none,
           updated_at := none }],
      nextTopicId := rh_id + 1 }
    (conv_ids.foldl (fun st cid => insertLink st rh_id cid) s1, acc.2 ++ [(norm, rh_id)])

/-- The persistence phase of `extract_rabbit_holes` (ingest.py lines
203-247), applied to the merged clusters: load `existing_by_norm` for the
user — only when a user id is present (line 209: `if user_id:`) — then
process each cluster. -/
def extract_rabbit_holes_reconcile (user_id : Option String) (now : ℚ)
    (conversations : List Conversation) (merged : List Hole) (s : Store) : Store :=
  let existing_by_norm : List (List Char × ℕ) :=
    match user_id with
    | some u => (s.topics.filter fun t => t.user_id = some u).map
        fun t => (normalizeRhName t.name, t.id)
    | none => []
  (merged.foldl (reconcileOne user_id now conversations) (s, existing_by_norm)).1

theorem insertLink_topics (s : Store) (rh_id : ℕ) (cid : String) :
    (insertLink s rh_id cid).topics = s.topics ∧
    (insertLink s rh_id cid).nextTopicId = s.nextTopicId := by
  unfold insertLink
  split_ifs <;> exact ⟨rfl, rfl⟩

theorem foldl_insertLink_topics (rh_id : ℕ) :
    ∀ (cids : List String) (s : Store),
    ((cids.foldl (fun st cid => insertLink st rh_id cid) s).topics = s.topics ∧
     (cids.foldl (fun st cid => insertLink st rh_id cid) s).nextTopicId = s.nextTopicId)
  | [], s => ⟨rfl, rfl⟩
  | c :: t, s => by
    rw [List.foldl_cons]
    obtain ⟨h1, h2⟩ := foldl_insertLink_topics rh_id t (insertLink s rh_id c)
    obtain ⟨g1, g2⟩ := insertLink_topics s rh_id c
    exact ⟨h1.trans g1, h2.trans g2⟩

theorem reconcile_fold_no_new (u : Option String) (now : ℚ)
    (convs : List Conversation) :
    ∀ (hs : List Hole) (s : Store) (ex : List (List Char × ℕ)),
    (∀ rh ∈ hs, (lookupNorm ex (normalizeRhName rh.name)).isSome) →
    ((hs.foldl (reconcileOne u now convs) (s, ex)).1.topics = s.topics ∧
     (hs.foldl (reconcileOne u now convs) (s, ex)).1.nextTopicId = s.nextTopicId)
  | [], s, ex, _ => ⟨rfl, rfl⟩
  | rh :: t, s, ex, h => by
    rw [List.foldl_cons]
    cases hl : lookupNorm ex (normalizeRhName rh.name) with
    | none =>
      exact absurd (h rh (List.mem_cons_self _ _)) (by rw [hl]; simp)
    | some rh_id =>
      simp only [reconcileOne, hl]
      obtain ⟨i1, i2⟩ := reconcile_fold_no_new u now convs t
        ((rh.conversation_ids.map fun cid => userPfx u ++ cid).foldl
          (fun st cid => insertLink st rh_id cid) s) ex
        (fun x hx => h x (List.mem_cons_of_mem _ hx))
      obtain ⟨f1, f2⟩ := foldl_insertLink_topics rh_id _ s
      exact ⟨i1.trans f1, i2.trans f2⟩

/-- C5 amended: for every user with a (non-null) user identifier, every
incoming cluster whose normalized name matches an already-stored topic of
that user reuses the stored identity — no topic row is created and the id
sequence does not advance.  (The single-tenant `user_id = None` case of the
original claim fails: see the counterexample.) -/
theorem C5_reuse_existing_topics (u : String) (now : ℚ)
    (convs : List Conversation) (s : Store) (hs : List Hole)
    (h : ∀ rh ∈ hs, normalizeRhName rh.name ∈
      ((s.topics.filter fun t => t.user_id = some u).map
        fun t => normalizeRhName t.name)) :
    (extract_rabbit_holes_reconcile (some u) now convs hs s).topics = s.topics ∧
    (extract_rabbit_holes_reconcile (some u) now convs hs s).nextTopicId
      = s.nextTopicId := by
  unfold extract_rabbit_holes_reconcile
  apply reconcile_fold_no_new
  intro rh hrh
  obtain ⟨t, ht, hteq⟩ := List.mem_map.mp (h rh hrh)
  rw [lookupNorm]
  have : ((s.topics.filter fun t => t.user_id = some u).map
      fun t => (normalizeRhName t.name, t.id)).find?
        (fun p => p.1 = normalizeRhName rh.name) |>.isSome := by
    rw [List.find?_isSome]
    exact ⟨(normalizeRhName t.name, t.id), List.mem_map_of_mem _ ht, by simp [hteq]⟩
  cases hf : ((s.topics.filter fun t => t.user_id = some u).map
      fun t => (normalizeRhName t.name, t.id)).find?
        (fun p => p.1 = normalizeRhName rh.name) with
  | none => rw [hf] at this; exact absurd this (by simp)
  | some v => rfl

def c5Topic : Topic :=
  { id := 1, user_id := some "u", name := "rust".toList, description := ""
    status := "active", priority_score := 0, last_researched_at := none
    updated_at := none }

def c5Store : Store :=
  { conversations := [], topics := [c5Topic], links := [], insights := []
    research_runs := [], daily_plans := []
    nextTopicId := 2, nextInsightId := 1, nextRunId := 1, nextPlanId := 1 }

def c5Hole : Hole :=
  { name := "Rust".toList, description := "d", conversation_ids := [] }

/-- Concrete instantiation of `C5_reuse_existing_topics`. -/
theorem C5_reuse_existing_topics_witness :
    (∀ rh ∈ [c5Hole], normalizeRhName rh.name ∈
      ((c5Store.topics.filter fun t => t.user_id = some "u").map
        fun t => normalizeRhName t.name)) ∧
    ((extract_rabbit_holes_reconcile (some "u") 0 [] [c5Hole] c5Store).topics
        = c5Store.topics ∧
     (extract_rabbit_holes_reconcile (some "u") 0 [] [c5Hole] c5Store).nextTopicId
        = c5Store.nextTopicId) :=
  ⟨by decide, C5_reuse_existing_topics "u" 0 [] c5Store [c5Hole] (by decide)⟩

/-- The same stored topic, owned by no user (single-tenant mode). -/
def c5TopicNone : Topic :=
  { id := 1, user_id := none, name := "rust".toList, description := ""
    status := "active", priority_score := 0, last_researched_at := none
    updated_at := none }

def c5StoreNone : Store :=
  { conversations := [], topics := [c5TopicNone], links := [], insights := []
    research_runs := [], daily_plans := []
    nextTopicId := 2, nextInsightId := 1, nextRunId := 1, nextPlanId := 1 }

/-- C5 counterexample: with no user identifier the code never loads
`existing_by_norm` (ingest.py line 209 `if user_id:`), so a cluster whose
normalized name matches the stored topic still creates a new topic row —
the topic count grows from 1 to 2, contradicting the claim's
"including the single-tenant case with no user identifier". -/
theorem C5_single_tenant_counterexample :
    normalizeRhName c5Hole.name = normalizeRhName c5TopicNone.name ∧
    (extract_rabbit_holes_reconcile none 0 [] [c5Hole] c5StoreNone).topics.length
      = c5StoreNone.topics.length + 1 := by
  exact ⟨by decide, by decide⟩

/-! ### Maintenance merge (ingest.py `deduplicate_rabbit_holes`, lines 282-318) -/

/-- The grouping key of line 294: `(r["user_id"], _normalize_rh_name(r["name"]))`. -/
def topicKey (t : Topic) : Option String × List Char :=
  (t.user_id, normalizeRhName t.name)

/-- The rows fetched by lines 287-290: all topics, or the user's topics when
a user id is supplied. -/
def scopedRows (user_id : Option String) (s : Store) : List Topic :=
  match user_id with
  | some u => s.topics.filter fun t => t.user_id = some u
  | none => s.topics

/-- `by_key` dict keys in first-encounter order (lines 292-295). -/
def keyStep (ks : List (Option String × List Char)) (t : Topic) :
    List (Option String × List Char) :=
  if topicKey t ∈ ks then ks else ks ++ [topicKey t]

def firstKeys (rows : List Topic) : List (Option String × List Char) :=
  rows.foldl keyStep []

/-- `min(group, key=lambda r: r["id"])`: the first row attaining the
minimal id. -/
def pyMinId (g0 : Topic) (gs : List Topic) : Topic :=
  gs.foldl (fun m t => if t.id < m.id then t else m) g0

/-- The body of the per-duplicate loop (lines 303-313): re-point the
duplicate's conversation links onto the canonical id (`INSERT .. SELECT ..
ON CONFLICT DO NOTHING` against the links' primary key, reading the table
snapshot), delete the duplicate's links, re-point insights and research
runs, and delete the duplicate topic row. -/
def mergeDupe (keep : ℕ) (s : Store) (d : ℕ) : Store :=
  let afterInsert := (s.links.filter fun p => p.1 = d).foldl
    (fun tbl p => if (keep, p.2) ∈ tbl then tbl else tbl ++ [(keep, p.2)]) s.links
  { s with
    links := afterInsert.filter fun p => p.1 ≠ d
    insights := s.insights.map fun i =>
      if i.rabbit_hole_id = d then { i with rabbit_hole_id := keep } else i
    research_runs := s.research_runs.map fun r =>
      if r.rabbit_hole_id = d then { r with rabbit_hole_id := keep } else r
    topics := s.topics.filter fun t => t.id ≠ d }

/-- One iteration of the group loop (lines 298-314): groups of size at most
one are skipped (`continue`); otherwise the lowest id is kept and every
other member is merged into it. -/
def processGroup (s : Store) (group : List Topic) : Store :=
  match group with
  | [] => s
  | [_] => s
  | g0 :: g1 :: gs =>
    let keep := pyMinId g0 (g1 :: gs)
    ((g0 :: g1 :: gs).filter fun r => r.id ≠ keep.id).foldl
      (fun st d => mergeDupe keep.id st d.id) s

/-- The ids a group's processing deletes from `rabbit_holes`. -/
def dupeIds (group : List Topic) : List ℕ :=
  match group with
  | [] => []
  | [_] => []
  | g0 :: g1 :: gs =>
    ((g0 :: g1 :: gs).filter fun r => r.id ≠ (pyMinId g0 (g1 :: gs)).id).map Topic.id

/-- The `by_key` groups in dict order: for each first-encountered key, the
scoped rows carrying it, in row order. -/
def dedupGroups (user_id : Option String) (s : Store) : List (List Topic) :=
  (firstKeys (scopedRows user_id s)).map fun k =>
    (scopedRows user_id s).filter fun t => topicKey t = k

/-- `deduplicate_rabbit_holes` (ingest.py lines 282-318): merge duplicate
topics (same user, same normalized name); the whole run commits once at the
end (single transaction), so the successful run is the state transformer
below. -/
def deduplicate_rabbit_holes (user_id : Option String) (s : Store) : Store :=
  (dedupGroups user_id s).foldl processGroup s

theorem mergeDupe_topics (k : ℕ) (s : Store) (d : ℕ) :
    (mergeDupe k s d).topics = s.topics.filter fun t => t.id ≠ d := rfl

theorem foldl_mergeDupe_topics (k : ℕ) :
    ∀ (ds : List Topic) (s : Store),
    ((ds.foldl (fun st d => mergeDupe k st d.id) s).topics
      = s.topics.filter fun t => t.id ∉ ds.map Topic.id)
  | [], s => by
    rw [List.map_nil]
    exact (List.filter_eq_self.mpr fun a _ => by simp).symm
  | d :: t, s => by
    rw [List.foldl_cons, foldl_mergeDupe_topics k t (mergeDupe k s d.id),
      mergeDupe_topics, List.filter_filter]
    apply List.filter_congr
    intro x hx
    by_cases h1 : x.id = d.id <;> by_cases h2 : x.id ∈ t.map Topic.id <;>
      simp [h1, h2]

theorem processGroup_topics (s : Store) (g : List Topic) :
    (processGroup s g).topics = s.topics.filter fun t => t.id ∉ dupeIds g := by
  match g with
  | [] => exact (List.filter_eq_self.mpr fun a _ => by simp [dupeIds]).symm
  | [x] => exact (List.filter_eq_self.mpr fun a _ => by simp [dupeIds]).symm
  | g0 :: g1 :: gs => exact foldl_mergeDupe_topics _ _ s

theorem foldl_processGroup_topics :
    ∀ (gs : List (List Topic)) (s : Store),
    ((gs.foldl processGroup s).topics
      = s.topics.filter fun t => t.id ∉ (gs.map dupeIds).flatten)
  | [], s => by
    rw [List.map_nil]
    exact (List.filter_eq_self.mpr fun a _ => by simp).symm
  | g :: t, s => by
    rw [List.foldl_cons, foldl_processGroup_topics t (processGroup s g),
      processGroup_topics, List.filter_filter]
    apply List.filter_congr
    intro x hx
    by_cases h1 : x.id ∈ dupeIds g <;>
      by_cases h2 : x.id ∈ (t.map dupeIds).flatten <;>
      simp [h1, h2]

theorem dedup_topics (u : Option String) (s : Store) :
    (deduplicate_rabbit_holes u s).topics
      = s.topics.filter fun t => t.id ∉ ((dedupGroups u s).map dupeIds).flatten :=
  foldl_processGroup_topics _ s

theorem two_le_length {α : Type} {a b : α} :
    ∀ {l : List α}, a ∈ l → b ∈ l → a ≠ b → 2 ≤ l.length
  | [], ha, _, _ => absurd ha (List.not_mem_nil _)
  | x :: xs, ha, hb, hab => by
    rcases List.mem_cons.mp ha with rfl | ha'
    · rcases List.mem_cons.mp hb with rfl | hb'
      · exact absurd rfl hab
      · have := List.length_pos.mpr (List.ne_nil_of_mem hb')
        simp only [List.length_cons]
        omega
    · have := List.length_pos.mpr (List.ne_nil_of_mem ha')
      simp only [List.length_cons]
      omega

theorem pyMinId_mem : ∀ (gs : List Topic) (g0 : Topic), pyMinId g0 gs ∈ g0 :: gs
  | [], g0 => List.mem_singleton.mpr rfl
  | a :: t, g0 => by
    show pyMinId (if a.id < g0.id then a else g0) t ∈ g0 :: a :: t
    rcases List.mem_cons.mp (pyMinId_mem t (if a.id < g0.id then a else g0)) with h | h
    · rw [h]
      split_ifs
      · exact List.mem_cons_of_mem _ (List.mem_cons_self _ _)
      · exact List.mem_cons_self _ _
    · exact List.mem_cons_of_mem _ (List.mem_cons_of_mem _ h)

theorem mem_foldl_keyStep :
    ∀ (l : List Topic) (acc : List (Option String × List Char)) (x),
    x ∈ acc → x ∈ l.foldl keyStep acc
  | [], _, _, h => h
  | a :: t, acc, x, h => by
    rw [List.foldl_cons]
    apply mem_foldl_keyStep t
    unfold keyStep
    split_ifs
    · exact h
    · exact List.mem_append_left _ h

theorem mem_firstKeys_of_mem :
    ∀ {rows : List Topic} {t : Topic}, t ∈ rows → topicKey t ∈ firstKeys rows := by
  have aux : ∀ (l : List Topic) (acc) (t : Topic), t ∈ l →
      topicKey t ∈ l.foldl keyStep acc := by
    intro l
    induction l with
    | nil => intro _ t h; exact absurd h (List.not_mem_nil _)
    | cons a l' ih =>
      intro acc t h
      rcases List.mem_cons.mp h with rfl | h'
      · rw [List.foldl_cons]
        apply mem_foldl_keyStep
        unfold keyStep
        split_ifs with hin
        · exact hin
        · exact List.mem_append_right _ (List.mem_singleton.mpr rfl)
      · exact ih _ t h'
  intro rows t h
  exact aux rows [] t h

theorem length_two_shape {α : Type} {l : List α} (h : 2 ≤ l.length) :
    ∃ a b t, l = a :: b :: t := by
  match l with
  | [] => simp at h
  | [x] => simp at h
  | a :: b :: t => exact ⟨a, b, t, rfl⟩

theorem mem_scoped_dedup {u : Option String} {s : Store} {t : Topic}
    (h : t ∈ scopedRows u (deduplicate_rabbit_holes u s)) :
    t ∈ scopedRows u s ∧ t.id ∉ ((dedupGroups u s).map dupeIds).flatten := by
  cases u with
  | none =>
    have h' : t ∈ (deduplicate_rabbit_holes none s).topics := h
    rw [dedup_topics] at h'
    obtain ⟨hm, hp⟩ := List.mem_filter.mp h'
    exact ⟨hm, by simpa using hp⟩
  | some u =>
    obtain ⟨hm, hu⟩ := List.mem_filter.mp h
    rw [dedup_topics] at hm
    obtain ⟨hm2, hp⟩ := List.mem_filter.mp hm
    exact ⟨List.mem_filter.mpr ⟨hm2, hu⟩, by simpa using hp⟩

theorem dedup_key_unique (u : Option String) (s : Store) :
    ∀ t1 ∈ scopedRows u (deduplicate_rabbit_holes u s),
    ∀ t2 ∈ scopedRows u (deduplicate_rabbit_holes u s),
    topicKey t1 = topicKey t2 → t1.id = t2.id := by
  intro t1 h1 t2 h2 hk
  obtain ⟨hr1, hnr1⟩ := mem_scoped_dedup h1
  obtain ⟨hr2, hnr2⟩ := mem_scoped_dedup h2
  by_contra hne
  have hkeys : topicKey t1 ∈ firstKeys (scopedRows u s) := mem_firstKeys_of_mem hr1
  have hgmem : (scopedRows u s).filter (fun t => topicKey t = topicKey t1)
      ∈ dedupGroups u s := List.mem_map_of_mem _ hkeys
  have ht1g : t1 ∈ (scopedRows u s).filter fun t => topicKey t = topicKey t1 :=
    List.mem_filter.mpr ⟨hr1, by simp⟩
  have ht2g : t2 ∈ (scopedRows u s).filter fun t => topicKey t = topicKey t1 :=
    List.mem_filter.mpr ⟨hr2, by simp [hk.symm]⟩
  have hlen : 2 ≤ ((scopedRows u s).filter fun t => topicKey t = topicKey t1).length :=
    two_le_length ht1g ht2g fun he => hne (by rw [he])
  obtain ⟨a, b, rest, hshape⟩ := length_two_shape hlen
  rw [hshape] at ht1g ht2g hgmem
  have hdupe : ∀ x : Topic, x ∈ a :: b :: rest → x.id ≠ (pyMinId a (b :: rest)).id →
      x.id ∈ ((dedupGroups u s).map dupeIds).flatten := by
    intro x hx hxid
    refine List.mem_flatten.mpr ⟨dupeIds (a :: b :: rest), List.mem_map_of_mem _ hgmem, ?_⟩
    show x.id ∈ ((a :: b :: rest).filter fun r => r.id ≠ (pyMinId a (b :: rest)).id).map Topic.id
    exact List.mem_map_of_mem _ (List.mem_filter.mpr ⟨hx, by simpa using hxid⟩)
  by_cases hq : t1.id = (pyMinId a (b :: rest)).id
  · exact hnr2 (hdupe t2 ht2g fun h => hne (hq.trans h.symm))
  · exact hnr1 (hdupe t1 ht1g hq)

theorem processGroup_eq_self {g : List Topic}
    (h : ∀ a ∈ g, ∀ b ∈ g, a.id = b.id) (st : Store) :
    processGroup st g = st := by
  match g with
  | [] => rfl
  | [x] => rfl
  | g0 :: g1 :: gs =>
    show ((g0 :: g1 :: gs).filter fun r => r.id ≠ (pyMinId g0 (g1 :: gs)).id).foldl
      (fun st d => mergeDupe (pyMinId g0 (g1 :: gs)).id st d.id) st = st
    have hkeep : pyMinId g0 (g1 :: gs) ∈ g0 :: g1 :: gs := pyMinId_mem _ _
    have hnil : ((g0 :: g1 :: gs).filter fun r => r.id ≠ (pyMinId g0 (g1 :: gs)).id) = [] := by
      rw [List.filter_eq_nil_iff]
      intro x hx
      simp [h x hx _ hkeep]
    rw [hnil]
    rfl

theorem foldl_processGroup_id :
    ∀ (gs : List (List Topic)) (st : Store),
    (∀ g ∈ gs, ∀ st', processGroup st' g = st') → gs.foldl processGroup st = st
  | [], _, _ => rfl
  | g :: t, st, h => by
    rw [List.foldl_cons, h g (List.mem_cons_self _ _) st]
    exact foldl_processGroup_id t st fun g' hg' => h g' (List.mem_cons_of_mem _ hg')

theorem dedup_noop (u : Option String) (s' : Store)
    (h : ∀ t1 ∈ scopedRows u s', ∀ t2 ∈ scopedRows u s',
      topicKey t1 = topicKey t2 → t1.id = t2.id) :
    deduplicate_rabbit_holes u s' = s' := by
  unfold deduplicate_rabbit_holes
  apply foldl_processGroup_id
  intro g hgm st
  obtain ⟨k, -, rfl⟩ := List.mem_map.mp hgm
  apply processGroup_eq_self
  intro a ha b hb
  obtain ⟨ha1, ha2⟩ := List.mem_filter.mp ha
  obtain ⟨hb1, hb2⟩ := List.mem_filter.mp hb
  have hak : topicKey a = k := by simpa using ha2
  have hbk : topicKey b = k := by simpa using hb2
  exact h a ha1 b hb1 (hak.trans hbk.symm)

/-- C7: the maintenance merge is idempotent — running
`deduplicate_rabbit_holes` twice (for any scope) produces exactly the state
of running it once — and after one global run no two distinct topics of the
same user share a normalized name (for any store whose topic ids are unique,
as the SERIAL primary key guarantees). -/
theorem C7_dedup_idempotent (u : Option String) (s : Store)
    (hid : (s.topics.map Topic.id).Nodup) :
    deduplicate_rabbit_holes u (deduplicate_rabbit_holes u s)
      = deduplicate_rabbit_holes u s ∧
    ∀ t1 ∈ (deduplicate_rabbit_holes none s).topics,
    ∀ t2 ∈ (deduplicate_rabbit_holes none s).topics,
      t1.user_id = t2.user_id →
      normalizeRhName t1.name = normalizeRhName t2.name → t1 = t2 := by
  constructor
  · exact dedup_noop u _ (dedup_key_unique u s)
  · intro t1 h1 t2 h2 hu hn
    have hk : topicKey t1 = topicKey t2 := by
      unfold topicKey
      rw [hu, hn]
    have hidq : t1.id = t2.id := dedup_key_unique none s t1 h1 t2 h2 hk
    have hs1 : t1 ∈ s.topics := by
      have := (dedup_topics none s) ▸ h1
      exact List.mem_of_mem_filter this
    have hs2 : t2 ∈ s.topics := by
      have := (dedup_topics none s) ▸ h2
      exact List.mem_of_mem_filter this
    exact List.inj_on_of_nodup_map hid hs1 hs2 hidq

/-- A store holding two same-user topics with equal normalized names. -/
def c7TopicA : Topic :=
  { id := 1, user_id := some "u", name := "Graph Theory".toList, description := ""
    status := "active", priority_score := 3, last_researched_at := none
    updated_at := none }

def c7TopicB : Topic :=
  { id := 2, user_id := some "u", name := "graph  theory".toList, description := ""
    status := "active", priority_score := 4, last_researched_at := none
    updated_at := none }

def c7Store : Store :=
  { conversations := ["u:c"], topics := [c7TopicA, c7TopicB]
    links := [(2, "u:c")], insights := [], research_runs := [], daily_plans := []
    nextTopicId := 3, nextInsightId := 1, nextRunId := 1, nextPlanId := 1 }

/-- Concrete instantiation of `C7_dedup_idempotent`. -/
theorem C7_dedup_idempotent_witness :
    (c7Store.topics.map Topic.id).Nodup ∧
    (deduplicate_rabbit_holes none (deduplicate_rabbit_holes none c7Store)
       = deduplicate_rabbit_holes none c7Store ∧
     ∀ t1 ∈ (deduplicate_rabbit_holes none c7Store).topics,
     ∀ t2 ∈ (deduplicate_rabbit_holes none c7Store).topics,
       t1.user_id = t2.user_id →
       normalizeRhName t1.name = normalizeRhName t2.name → t1 = t2) :=
  ⟨by decide, C7_dedup_idempotent none c7Store (by decide)⟩

/-! ### Research cycle orchestrator (agent.py)

The LLM and web-search services are modelled as oracle functions bundled in
`ResearchEnv`; an oracle returning `Except.error` models the Python call
raising (network failure, non-2xx status, or `json.loads` failure on the
reply).  The oracles receive the same information the code's prompts are
built from. -/

/-- Strict comparison for `ORDER BY last_researched_at ASC NULLS FIRST`. -/
def nullsFirstLt (a b : Option ℚ) : Bool :=
  match a, b with
  | none, none => false
  | none, some _ => true
  | some _, none => false
  | some x, some y => decide (x < y)

/-- Row order of `ORDER BY last_researched_at ASC NULLS FIRST,
priority_score DESC` (ties between equal keys are unspecified in SQL; the
stable sort below is one refinement). -/
def staleLe (a b : Topic) : Prop :=
  nullsFirstLt a.last_researched_at b.last_researched_at = true ∨
  (a.last_researched_at = b.last_researched_at ∧ b.priority_score ≤ a.priority_score)

instance staleLeDecidable : DecidableRel staleLe := fun a b =>
  inferInstanceAs (Decidable
    (nullsFirstLt a.last_researched_at b.last_researched_at = true ∨
     (a.last_researched_at = b.last_researched_at ∧
      b.priority_score ≤ a.priority_score)))

/-- agent.py `get_stale_rabbit_holes` (lines 11-31). -/
def get_stale_rabbit_holes (limit : ℕ) (user_id : Option String) (s : Store) :
    List Topic :=
  let active : List Topic :=
    match user_id with
    | some u => s.topics.filter fun t => t.status = "active" ∧ t.user_id = some u
    | none => s.topics.filter fun t => t.status = "active"
  (active.insertionSort staleLe).take limit

/-- agent.py `get_recent_insights` (lines 34-45): the topic's insights,
most recent first, limited; the code renders them into a prompt string,
which the query-generation oracle receives as structured data instead. -/
def get_recent_insights (s : Store) (rh_id : ℕ) (limit : ℕ) : List Insight :=
  ((s.insights.filter fun i => i.rabbit_hole_id = rh_id).insertionSort
    fun a b => b.created_at ≤ a.created_at).take limit

/-- The outbound services used by one research pass and plan generation. -/
structure ResearchEnv where
  genQueries : Topic → List Insight → Except String (List String)
  searchFmt : String → Except String String
  synthesize : Topic → String → Except String Synthesis
  planGen : List (Topic × Option Insight) → Except String String

/-- agent.py `research_rabbit_hole` (lines 48-100): generate queries,
search each, synthesize, then persist one insight, one research run
(search text truncated to 10000 characters) and the topic's
last-researched/updated timestamps.  Any raising step propagates. -/
def research_rabbit_hole (env : ResearchEnv) (now : ℚ) (rh : Topic)
    (s : Store) : Except String Store := do
  let recent := get_recent_insights s rh.id 3
  let queries ← env.genQueries rh recent
  let blocks ← queries.mapM fun q => do
    let formatted ← env.searchFmt q
    pure ("Query: " ++ q ++ "\n" ++ formatted)
  let combined := String.intercalate "\n\n---\n\n" blocks
  let synth ← env.synthesize rh combined
  pure { s with
    insights := s.insights ++
      [{ id := s.nextInsightId, rabbit_hole_id := rh.id
         content := synth.insight.getD "", grounded := true
         urgency := synth.urgency.getD "low", created_at := now }]
    nextInsightId := s.nextInsightId + 1
    research_runs := s.research_runs ++
      [{ id := s.nextRunId, rabbit_hole_id := rh.id, query_sent := queries
         deepseek_response := synth, you_com_results := combined.take 10000 }]
    nextRunId := s.nextRunId + 1
    topics := s.topics.map fun t =>
      if t.id = rh.id then { t with last_researched_at := some now, updated_at := some now }
      else t }

/-- The most recent insight of a topic (`LEFT JOIN LATERAL ... LIMIT 1`). -/
def latestInsight (s : Store) (rh_id : ℕ) : Option Insight :=
  (get_recent_insights s rh_id 1).head?

/-- The upsert of agent.py lines 140-145: `ON CONFLICT (user_id, plan_date)
DO UPDATE`.  A SQL unique index never matches two NULLs, so with no user id
every run inserts a fresh row. -/
def upsertPlan (plans : List DailyPlan) (pid : ℕ) (user_id : Option String)
    (today : ℤ) (text : String) : List DailyPlan :=
  match user_id with
  | none => plans ++ [{ id := pid, user_id := none, plan_date := today, plan_json := text }]
  | some u =>
    if (plans.find? fun p => p.user_id = some u ∧ p.plan_date = today).isSome then
      plans.map fun p =>
        if p.user_id = some u ∧ p.plan_date = today then { p with plan_json := text } else p
    else plans ++ [{ id := pid, user_id := some u, plan_date := today, plan_json := text }]

/-- agent.py `build_daily_plan` (lines 103-149). -/
def build_daily_plan (env : ResearchEnv) (today : ℤ) (user_id : Option String)
    (s : Store) : Except String Store := do
  let active : List Topic :=
    match user_id with
    | some u => s.topics.filter fun t => t.status = "active" ∧ t.user_id = some u
    | none => s.topics.filter fun t => t.status = "active"
  let holes := active.insertionSort fun a b => b.priority_score ≤ a.priority_score
  let plan_text ← env.planGen (holes.map fun t => (t, latestInsight s t.id))
  pure { s with
    daily_plans := upsertPlan s.daily_plans s.nextPlanId user_id today plan_text
    nextPlanId := s.nextPlanId + 1 }

/-- agent.py `run_cycle` (lines 152-170): select stale topics, research each
in order — with no exception handling, so a raising topic propagates — then
generate the daily plan. -/
def run_cycle (env : ResearchEnv) (now : ℚ) (today : ℤ) (num_holes : ℕ)
    (user_id : Option String) (s : Store) : Except String Store :=
  let holes := get_stale_rabbit_holes num_holes user_id s
  if holes.isEmpty then Except.ok s
  else do
    let s1 ← holes.foldlM (fun st rh => research_rabbit_hole env now rh st) s
    build_daily_plan env today user_id s1

def c3TopicA : Topic :=
  { id := 1, user_id := some "u", name := "alpha".toList, description := ""
    status := "active", priority_score := 10, last_researched_at := none
    updated_at := none }

def c3TopicB : Topic :=
  { id := 2, user_id := some "u", name := "beta".toList, description := ""
    status := "active", priority_score := 5, last_researched_at := none
    updated_at := none }

def c3Store : Store :=
  { conversations := [], topics := [c3TopicA, c3TopicB], links := []
    insights := [], research_runs := [], daily_plans := []
    nextTopicId := 3, nextInsightId := 1, nextRunId := 1, nextPlanId := 1 }

/-- Query generation raises for the first selected topic only; every other
service call succeeds. -/
def c3Env : ResearchEnv :=
  { genQueries := fun rh _ => if rh.id = 1 then Except.error "boom" else Except.ok []
    searchFmt := fun _ => Except.ok ""
    synthesize := fun _ _ => Except.ok
      { insight := some "", should_revisit := none, urgency := some "low", reason := none }
    planGen := fun _ => Except.ok "plan" }

/-- C3: the claim states a failing topic is skipped, later topics are still
researched and the cycle returns successfully.  The code's per-topic loop
(agent.py lines 162-164) has no exception handling: with two selected
topics, a failure researching the first makes `run_cycle` itself raise —
the second topic is never researched and the cycle does not return
success. -/
theorem C3_failure_aborts_cycle :
    get_stale_rabbit_holes 5 (some "u") c3Store = [c3TopicA, c3TopicB] ∧
    run_cycle c3Env 0 0 5 (some "u") c3Store = Except.error "boom" := by
  exact ⟨by decide, rfl⟩

/-! ### Topic classifier (services/akash.py `classify_conversations` and
the batch loop of ingest.py lines 184-191) -/

def backquote : Char := Char.ofNat 96

def fenceChars : List Char := [backquote, backquote, backquote]

def listStartsWith (p l : List Char) : Bool := l.take p.length == p

def listEndsWith (p l : List Char) : Bool := l.drop (l.length - p.length) == p

/-- `cleaned.split("\n", 1)[1]`: everything after the first newline.  (The
source raises IndexError when no newline is present; that path is not
exercised here.) -/
def dropFirstLine (l : List Char) : List Char :=
  match l.dropWhile fun c => c ≠ '\n' with
  | [] => []
  | _ :: t => t

/-- Index of the last occurrence of the triple-backtick fence. -/
def lastFenceIdx : List Char → Option ℕ
  | [] => none
  | c :: cs =>
    match lastFenceIdx cs with
    | some i => some (i + 1)
    | none => if listStartsWith fenceChars (c :: cs) then some 0 else none

/-- `cleaned.rsplit("```", 1)[0]`: everything before the last fence. -/
def beforeLastFence (l : List Char) : List Char :=
  match lastFenceIdx l with
  | some i => l.take i
  | none => l

/-- akash.py lines 66-72: strip, drop a leading fence line, drop a trailing
fence, strip again. -/
def cleanReply (raw : List Char) : List Char :=
  let c1 := pyStrip raw
  let c2 := if listStartsWith fenceChars c1 then dropFirstLine c1 else c1
  let c3 := if listEndsWith fenceChars c2 then beforeLastFence c2 else c2
  pyStrip c3

/-- The untyped error raised by `json.loads` on invalid JSON; the source
defines no `ClassificationParseError`. -/
inductive ClassifyError where
  | jsonDecodeError
  deriving DecidableEq

/-- akash.py `classify_conversations` (lines 36-73): build the prompt from
the batch (the chat oracle receives the batch), clean the reply, and
`json.loads` it (the parse oracle; `none` models the raised
`json.JSONDecodeError`). -/
def classify_conversations {α : Type} (chatReply : List α → List Char)
    (parseJson : List Char → Option (List Hole)) (batch : List α) :
    Except ClassifyError (List Hole) :=
  match parseJson (cleanReply (chatReply batch)) with
  | some holes => Except.ok holes
  | none => Except.error ClassifyError.jsonDecodeError

/-- `summaries[i : i + batch_size]` slices for `i in range(0, len, n)`,
written with a length fuel to stay structurally recursive. -/
def chunksOfFuel {α : Type} (n : ℕ) : ℕ → List α → List (List α)
  | _, [] => []
  | 0, _ :: _ => []
  | fuel + 1, x :: xs => (x :: xs).take n :: chunksOfFuel n fuel ((x :: xs).drop n)

def batchesOf {α : Type} (n : ℕ) (l : List α) : List (List α) :=
  chunksOfFuel n l.length l

/-- The batch loop of `extract_rabbit_holes` (ingest.py lines 184-191):
classify each batch of 30 and extend `all_holes`; a raising batch
propagates out of the loop (there is no exception handling). -/
def classifyBatchLoop {α : Type}
    (classify : List α → Except ClassifyError (List Hole))
    (summaries : List α) : Except ClassifyError (List Hole) :=
  (batchesOf 30 summaries).foldlM
    (fun all_holes batch => do
      let holes ← classify batch
      pure (all_holes ++ holes)) []

/-- The LLM reply per batch: garbage for any batch containing summary 0
(the first batch), a valid empty JSON array for the others. -/
def c4ChatReply (batch : List ℕ) : List Char :=
  if batch.contains 0 then "oops".toList else "[]".toList

/-- `json.loads` oracle: only `"[]"` is valid JSON among the used replies. -/
def c4ParseJson (s : List Char) : Option (List Hole) :=
  if s = "[]".toList then some [] else none

/-- C3/C4 shape facts: 35 summaries split into two batches of 30 and 5. -/
theorem batchesOf_35 :
    (batchesOf 30 (List.range 35)).map List.length = [30, 5] := by decide

/-- C4: the claim states invalid JSON yields a typed
`ClassificationParseError` for that batch only and later batches are still
classified.  In the code `json.loads` raises an untyped
`json.JSONDecodeError` and the batch loop has no handler: with 35 summaries
in two batches, an invalid reply for the first batch aborts the whole
classification run even though the second batch's reply is valid. -/
theorem C4_parse_error_aborts_classification :
    classifyBatchLoop (classify_conversations c4ChatReply c4ParseJson) (List.range 35)
      = Except.error ClassifyError.jsonDecodeError ∧
    classify_conversations c4ChatReply c4ParseJson ((List.range 35).drop 30)
      = Except.ok [] ∧
    cleanReply "```json\n[]\n```".toList = "[]".toList := by
  exact ⟨rfl, rfl, by decide⟩

end RabbitHole
